import Mathlib

/-!
Shallow embedding of `src/run.py`, a propositional encoding of directed-graph
properties (edges, adjacency, hop distances, reachability, strong
connectivity) built with the bauhaus library and handed to a SAT solver.

Modelling conventions:
* The script names nodes by the strings "n0", "n1", ...; the map
  `i ↦ "n" ++ toString i` is injective, so a node is represented here by its
  index `i : Nat`.  The canonical Python string of each proposition is
  recovered by `canon` below.
* bauhaus propositions compare equal exactly when `hash(str(self))` agrees
  (class `Hashable`, run.py lines 17-25).  Python's string hash is modelled
  as an injective function of the string, i.e. the string itself; all
  propositions the script ever builds have pairwise distinct strings, so the
  structural inductive `Proposition` below with its structural equality is
  an isomorphic model of the variable registry.
* `E.add_constraint` appends to the encoding's constraint list; the encoding
  is modelled as the `List Formula` of added constraints, satisfied when
  every element evaluates to `true` (conjunction).
* bauhaus connectives: `~` is `Formula.neg`, binary `&`/`|` are
  `Formula.and`/`Formula.or`, `>>` is `Formula.impl`, and the variadic
  `Or([...])`/`And([...])` are right folds `bigOr`/`bigAnd`.
* The script aborts with `AssertionError` when `example_graph` is called
  with `NUM_NODES ≠ 4`; fallible construction is modelled with `Option`.
-/

/-- Kinds of boolean variables introduced by the script: one constructor per
`@proposition`-annotated class of run.py (lines 28-73), with nodes as
indices. -/
inductive Proposition where
  | Edge (x y : Nat)
  | Adjacent (x y : Nat)
  | Distance (x y : Nat) (n : Nat)
  | Reachable (n : Nat)
  | Property (name : String)
deriving DecidableEq

/-- Canonical `__str__` of each proposition (run.py lines 35-36, 43-44,
54-55, 63-64, 72-73), with the node index `i` rendered as the node name
"n{i}" exactly as the f-strings of the script do. -/
def canon : Proposition → String
  | .Edge x y => "(n" ++ toString x ++ " -> n" ++ toString y ++ ")"
  | .Adjacent x y => "(n" ++ toString x ++ " (-) n" ++ toString y ++ ")"
  | .Distance x y n => "d(n" ++ toString x ++ ", n" ++ toString y ++ ") = " ++ toString n
  | .Reachable n => "reached(n" ++ toString n ++ ")"
  | .Property name => name

/-- Python's `hash(str(self))` (run.py line 19), with the string hash
modelled as an injective function of the string — the string itself. -/
def pyHash (p : Proposition) : String := canon p

/-- The `__eq__` of class `Hashable` (run.py line 22): two propositions are
equal when their hashes agree. -/
def pyEq (p q : Proposition) : Bool := pyHash p == pyHash q

/-- Formulas over the propositions, mirroring the bauhaus connectives used
by the script. -/
inductive Formula where
  | atom (p : Proposition)
  | neg (f : Formula)
  | and (f g : Formula)
  | or (f g : Formula)
  | impl (f g : Formula)
  | tru
  | fls
deriving DecidableEq

/-- bauhaus `Or([...])` over a list of formulas. -/
def bigOr (l : List Formula) : Formula := l.foldr Formula.or Formula.fls

/-- bauhaus `And([...])` over a list of formulas. -/
def bigAnd (l : List Formula) : Formula := l.foldr Formula.and Formula.tru

/-- Truth value of a formula under an assignment of the propositions. -/
def eval (v : Proposition → Bool) : Formula → Bool
  | .atom p => v p
  | .neg f => !(eval v f)
  | .and f g => eval v f && eval v g
  | .or f g => eval v f || eval v g
  | .impl f g => !(eval v f) || eval v g
  | .tru => true
  | .fls => false

/-- An assignment satisfies a constraint list when every constraint
evaluates to `true` (the encoding is the conjunction of its constraints). -/
def satisfies (v : Proposition → Bool) (Γ : List Formula) : Bool :=
  Γ.all (eval v)

/-- run.py lines 79-84: the Edge propositions, in allocation order, as
ordered node pairs. -/
def all_edges (N : Nat) : List (Nat × Nat) :=
  (List.range N).flatMap fun n1 => (List.range N).map fun n2 => (n1, n2)

/-- run.py line 75: the named property tied to strong connectivity. -/
def STRONGLY_CONNECTED : Proposition := .Property ("strongly_connected")

/-! ### The constraint groups of `build_theory` (run.py lines 127-200) -/

/-- run.py lines 130-131: no self loops. -/
def noSelfLoops (N : Nat) : List Formula :=
  (List.range N).map fun node => .neg (.atom (.Edge node node))

/-- run.py lines 134-141: edges imply adjacency, adjacency is symmetric,
adjacency implies an edge in one of the two directions. -/
def adjacencyConstraints (N : Nat) : List Formula :=
  (all_edges N).flatMap fun e =>
    [ .impl (.atom (.Edge e.1 e.2)) (.atom (.Adjacent e.1 e.2)),
      .impl (.atom (.Adjacent e.1 e.2)) (.atom (.Adjacent e.2 e.1)),
      .impl (.atom (.Adjacent e.1 e.2))
            (.or (.atom (.Edge e.1 e.2)) (.atom (.Edge e.2 e.1))) ]

/-- run.py lines 144-145: every node is at distance 0 from itself. -/
def distanceZeroSelf (N : Nat) : List Formula :=
  (List.range N).map fun node => .atom (.Distance node node 0)

/-- run.py lines 148-150: an edge forces hop distance 1. -/
def oneHopConstraints (N : Nat) : List Formula :=
  (all_edges N).map fun e => .impl (.atom (.Edge e.1 e.2)) (.atom (.Distance e.1 e.2 1))

/-- run.py lines 154-165: distance transitivity, enumerated over all node
triples and all distance triples `d3 = d1 + d2` within `0..N`. -/
def transitivityConstraints (N : Nat) : List Formula :=
  (List.range N).flatMap fun n1 =>
  (List.range N).flatMap fun n2 =>
  (List.range N).flatMap fun n3 =>
  (List.range (N+1)).flatMap fun d1 =>
  (List.range (N+1)).flatMap fun d2 =>
  (List.range (N+1)).flatMap fun d3 =>
    if d3 = d1 + d2 then
      [ .impl (.and (.atom (.Distance n1 n2 d1)) (.atom (.Distance n2 n3 d2)))
              (.atom (.Distance n1 n3 d3)) ]
    else []

/-- run.py lines 171-177: well-supportedness — a claimed distance `d ≥ 1`
from `n1` to `n3` requires a predecessor `n2` with an edge into `n3` and
distance `d-1` from `n1`. -/
def wellSupportedConstraints (N : Nat) : List Formula :=
  (List.range N).flatMap fun n1 =>
  (List.range N).flatMap fun n3 =>
  (List.range' 1 N).map fun d =>
    .impl (.atom (.Distance n1 n3 d))
          (bigOr ((List.range N).map fun n2 =>
            .and (.atom (.Edge n2 n3)) (.atom (.Distance n1 n2 (d-1)))))

/-- run.py lines 180-184: distance 0 holds for a node to itself and fails
between distinct nodes. -/
def distanceZeroUnique (N : Nat) : List Formula :=
  (List.range N).flatMap fun node =>
    .atom (.Distance node node 0) ::
    ((List.range N).flatMap fun other =>
      if other ≠ node then [ .neg (.atom (.Distance node other 0)) ] else [])

/-- run.py lines 190-198: for every node `n1`, the disjunctions "n0 reaches
n1 within some distance" and "n1 reaches n0 within some distance". -/
def all_connections (N : Nat) : List Formula :=
  (List.range N).flatMap fun n1 =>
    [ bigOr ((List.range (N+1)).map fun d => .atom (.Distance 0 n1 d)),
      bigOr ((List.range (N+1)).map fun d => .atom (.Distance n1 0 d)) ]

/-- run.py lines 199-200: STRONGLY_CONNECTED is equivalent to the
conjunction of all the reachability disjunctions. -/
def strongConnectivityConstraints (N : Nat) : List Formula :=
  [ .impl (.atom STRONGLY_CONNECTED) (bigAnd (all_connections N)),
    .impl (bigAnd (all_connections N)) (.atom STRONGLY_CONNECTED) ]

/-- The constraint groups emitted by `build_theory` before any scenario
injection (run.py lines 127-200), in emission order. -/
def baseTheory (N : Nat) : List Formula :=
  noSelfLoops N ++ adjacencyConstraints N ++ distanceZeroSelf N ++
  oneHopConstraints N ++ transitivityConstraints N ++
  wellSupportedConstraints N ++ distanceZeroUnique N ++
  strongConnectivityConstraints N

/-! ### Scenario injection (run.py lines 96-123) and `build_theory` -/

/-- run.py lines 113-116: the two hard-coded example edge sets (Python sets,
listed here in the written order; only membership is ever used). -/
def desired_edges : Nat → List (Nat × Nat)
  | 1 => [(0,1), (1,2), (2,0), (2,3), (3,1)]
  | 2 => [(0,1), (1,2), (2,3), (3,0)]
  | _ => []

/-- run.py lines 118-123: assert each desired edge and deny every other
edge among the `N` nodes. -/
def exampleGraphConstraints (version N : Nat) : List Formula :=
  (List.range N).flatMap fun n1 =>
  (List.range N).flatMap fun n2 =>
    if (n1, n2) ∈ desired_edges version then [ .atom (.Edge n1 n2) ]
    else [ .neg (.atom (.Edge n1 n2)) ]

/-- run.py lines 110-123: `example_graph` asserts `NUM_NODES == 4` before
adding any constraint; the `AssertionError` on any other node count is
modelled by `none`. -/
def example_graph (version N : Nat) : Option (List Formula) :=
  if N = 4 then some (exampleGraphConstraints version N) else none

/-- run.py lines 96-107: the forced-disconnection block — n0 is reachable,
reachability propagates across adjacency, and some node is unreachable. -/
def force_disconnected (N : Nat) : List Formula :=
  .atom (.Reachable 0) ::
  ((List.range N).flatMap fun n1 =>
    (List.range N).map fun n2 =>
      .impl (.and (.atom (.Reachable n1)) (.atom (.Adjacent n1 n2)))
            (.atom (.Reachable n2)))
  ++ [ bigOr ((List.range N).map fun n => .neg (.atom (.Reachable n))) ]

/-- run.py line 12: the module-level flag is hard-coded to False. -/
def FORCE_DISCONNECTED : Bool := false

/-- run.py lines 127-208: `build_theory` emits the constraint groups, then
unconditionally injects example graph version 2 (which asserts the node
count is 4), then the forced-disconnection block if the flag is set. -/
def build_theory (N : Nat) : Option (List Formula) :=
  match example_graph 2 N with
  | none => none
  | some ex =>
      some (baseTheory N ++ ex ++
        (if FORCE_DISCONNECTED then force_disconnected N else []))

/-! ### Basic evaluation lemmas -/

@[simp] theorem eval_atom (v p) : eval v (.atom p) = v p := rfl

@[simp] theorem eval_neg (v f) : eval v (.neg f) = !(eval v f) := rfl

@[simp] theorem eval_and (v f g) : eval v (.and f g) = (eval v f && eval v g) := rfl

@[simp] theorem eval_or (v f g) : eval v (.or f g) = (eval v f || eval v g) := rfl

@[simp] theorem eval_impl (v f g) : eval v (.impl f g) = (!(eval v f) || eval v g) := rfl

theorem eval_bigOr (v : Proposition → Bool) (l : List Formula) :
    eval v (bigOr l) = l.any (eval v) := by
  induction l with
  | nil => rfl
  | cons f t ih => simp [bigOr, eval, List.foldr] at ih ⊢; rw [ih]

theorem eval_bigAnd (v : Proposition → Bool) (l : List Formula) :
    eval v (bigAnd l) = l.all (eval v) := by
  induction l with
  | nil => rfl
  | cons f t ih => simp [bigAnd, eval, List.foldr] at ih ⊢; rw [ih]

theorem satisfies_iff {v : Proposition → Bool} {Γ : List Formula} :
    satisfies v Γ = true ↔ ∀ f ∈ Γ, eval v f = true :=
  List.all_eq_true

theorem satisfies_append (v : Proposition → Bool) (a b : List Formula) :
    satisfies v (a ++ b) = (satisfies v a && satisfies v b) :=
  List.all_append

theorem eval_of_satisfies {v : Proposition → Bool} {Γ : List Formula} {f : Formula}
    (h : satisfies v Γ = true) (hf : f ∈ Γ) : eval v f = true :=
  satisfies_iff.mp h f hf

/-! ### Membership of the individual constraints in their groups -/

theorem mem_all_edges {N x y : Nat} : (x, y) ∈ all_edges N ↔ x < N ∧ y < N := by
  simp only [all_edges, List.mem_flatMap, List.mem_map, List.mem_range]
  constructor
  · rintro ⟨a, ha, b, hb, hab⟩
    cases hab; exact ⟨ha, hb⟩
  · rintro ⟨hx, hy⟩
    exact ⟨x, hx, y, hy, rfl⟩

theorem mem_noSelfLoops {N v : Nat} (h : v < N) :
    Formula.neg (.atom (.Edge v v)) ∈ noSelfLoops N := by
  simp only [noSelfLoops, List.mem_map, List.mem_range]
  exact ⟨v, h, rfl⟩

theorem mem_adjacency_of_edge {N x y : Nat} (hx : x < N) (hy : y < N) :
    Formula.impl (.atom (.Edge x y)) (.atom (.Adjacent x y)) ∈ adjacencyConstraints N := by
  simp only [adjacencyConstraints, List.mem_flatMap]
  exact ⟨(x, y), mem_all_edges.mpr ⟨hx, hy⟩, by simp⟩

theorem mem_adjacency_symm {N x y : Nat} (hx : x < N) (hy : y < N) :
    Formula.impl (.atom (.Adjacent x y)) (.atom (.Adjacent y x)) ∈ adjacencyConstraints N := by
  simp only [adjacencyConstraints, List.mem_flatMap]
  exact ⟨(x, y), mem_all_edges.mpr ⟨hx, hy⟩, by simp⟩

theorem mem_adjacency_cover {N x y : Nat} (hx : x < N) (hy : y < N) :
    Formula.impl (.atom (.Adjacent x y)) (.or (.atom (.Edge x y)) (.atom (.Edge y x))) ∈
      adjacencyConstraints N := by
  simp only [adjacencyConstraints, List.mem_flatMap]
  exact ⟨(x, y), mem_all_edges.mpr ⟨hx, hy⟩, by simp⟩

theorem mem_distanceZeroSelf {N v : Nat} (h : v < N) :
    Formula.atom (.Distance v v 0) ∈ distanceZeroSelf N := by
  simp only [distanceZeroSelf, List.mem_map, List.mem_range]
  exact ⟨v, h, rfl⟩

theorem mem_oneHop {N x y : Nat} (hx : x < N) (hy : y < N) :
    Formula.impl (.atom (.Edge x y)) (.atom (.Distance x y 1)) ∈ oneHopConstraints N := by
  simp only [oneHopConstraints, List.mem_map]
  exact ⟨(x, y), mem_all_edges.mpr ⟨hx, hy⟩, rfl⟩

theorem mem_transitivity {N n1 n2 n3 d1 d2 : Nat} (h1 : n1 < N) (h2 : n2 < N) (h3 : n3 < N)
    (hd : d1 + d2 ≤ N) :
    Formula.impl (.and (.atom (.Distance n1 n2 d1)) (.atom (.Distance n2 n3 d2)))
      (.atom (.Distance n1 n3 (d1 + d2))) ∈ transitivityConstraints N := by
  unfold transitivityConstraints
  refine List.mem_flatMap.mpr ⟨n1, List.mem_range.mpr h1, ?_⟩
  refine List.mem_flatMap.mpr ⟨n2, List.mem_range.mpr h2, ?_⟩
  refine List.mem_flatMap.mpr ⟨n3, List.mem_range.mpr h3, ?_⟩
  refine List.mem_flatMap.mpr ⟨d1, List.mem_range.mpr (by omega), ?_⟩
  refine List.mem_flatMap.mpr ⟨d2, List.mem_range.mpr (by omega), ?_⟩
  refine List.mem_flatMap.mpr ⟨d1 + d2, List.mem_range.mpr (by omega), ?_⟩
  simp

theorem mem_wellSupported {N a c d : Nat} (ha : a < N) (hc : c < N) (h1 : 1 ≤ d) (h2 : d ≤ N) :
    Formula.impl (.atom (.Distance a c d))
      (bigOr ((List.range N).map fun b =>
        .and (.atom (.Edge b c)) (.atom (.Distance a b (d-1))))) ∈
      wellSupportedConstraints N := by
  unfold wellSupportedConstraints
  refine List.mem_flatMap.mpr ⟨a, List.mem_range.mpr ha, ?_⟩
  refine List.mem_flatMap.mpr ⟨c, List.mem_range.mpr hc, ?_⟩
  exact List.mem_map.mpr ⟨d, List.mem_range'_1.mpr ⟨h1, by omega⟩, rfl⟩

theorem mem_distanceZeroUnique_neg {N x y : Nat} (hx : x < N) (hy : y < N) (hxy : y ≠ x) :
    Formula.neg (.atom (.Distance x y 0)) ∈ distanceZeroUnique N := by
  unfold distanceZeroUnique
  refine List.mem_flatMap.mpr ⟨x, List.mem_range.mpr hx, List.mem_cons.mpr (Or.inr ?_)⟩
  refine List.mem_flatMap.mpr ⟨y, List.mem_range.mpr hy, ?_⟩
  simp [hxy]

theorem mem_strongConn_mp {N : Nat} :
    Formula.impl (.atom STRONGLY_CONNECTED) (bigAnd (all_connections N)) ∈
      strongConnectivityConstraints N := by
  simp [strongConnectivityConstraints]

theorem mem_strongConn_mpr {N : Nat} :
    Formula.impl (bigAnd (all_connections N)) (.atom STRONGLY_CONNECTED) ∈
      strongConnectivityConstraints N := by
  simp [strongConnectivityConstraints]

/-! ### Positioning the groups inside `baseTheory` -/

theorem noSelfLoops_subset (N : Nat) : noSelfLoops N ⊆ baseTheory N := by
  intro f hf; simp [baseTheory, List.mem_append]; tauto

theorem adjacency_subset (N : Nat) : adjacencyConstraints N ⊆ baseTheory N := by
  intro f hf; simp [baseTheory, List.mem_append]; tauto

theorem distanceZeroSelf_subset (N : Nat) : distanceZeroSelf N ⊆ baseTheory N := by
  intro f hf; simp [baseTheory, List.mem_append]; tauto

theorem oneHop_subset (N : Nat) : oneHopConstraints N ⊆ baseTheory N := by
  intro f hf; simp [baseTheory, List.mem_append]; tauto

theorem transitivity_subset (N : Nat) : transitivityConstraints N ⊆ baseTheory N := by
  intro f hf; simp [baseTheory, List.mem_append]; tauto

theorem wellSupported_subset (N : Nat) : wellSupportedConstraints N ⊆ baseTheory N := by
  intro f hf; simp [baseTheory, List.mem_append]; tauto

theorem distanceZeroUnique_subset (N : Nat) : distanceZeroUnique N ⊆ baseTheory N := by
  intro f hf; simp [baseTheory, List.mem_append]; tauto

theorem strongConn_subset (N : Nat) : strongConnectivityConstraints N ⊆ baseTheory N := by
  intro f hf; simp [baseTheory, List.mem_append]; tauto

/-! ### Concrete assignments used as witnesses -/

/-- The empty graph on `N` nodes: no edges, no adjacencies, distance facts
only on the diagonal at 0, nothing reachable, and the named properties true
exactly when `N = 1` (the one-node graph is trivially strongly connected). -/
def emptyAssign (N : Nat) : Proposition → Bool
  | .Distance x y d => decide (x = y ∧ d = 0)
  | .Property _ => decide (N = 1)
  | _ => false

/-- A model of the 4-cycle scenario (example graph version 2): edges exactly
the four cycle edges, adjacency their symmetric closure, and
`Distance x y d` true when `d ≤ 4` and walking `d` steps around the cycle
from `x` lands on `y`. -/
def cycleAssign : Proposition → Bool
  | .Edge x y => decide ((x, y) ∈ desired_edges 2)
  | .Adjacent x y => decide ((x, y) ∈ desired_edges 2 ∨ (y, x) ∈ desired_edges 2)
  | .Distance x y d => decide (d ≤ 4 ∧ (x + d) % 4 = y % 4)
  | .Reachable _ => true
  | .Property _ => true

/-! ### The empty graph satisfies every constraint group -/

theorem noSelfLoops_empty {N : Nat} : ∀ f ∈ noSelfLoops N, eval (emptyAssign N) f = true := by
  intro f hf
  simp only [noSelfLoops, List.mem_map, List.mem_range] at hf
  obtain ⟨v, -, rfl⟩ := hf
  simp [emptyAssign]

theorem adjacency_empty {N : Nat} :
    ∀ f ∈ adjacencyConstraints N, eval (emptyAssign N) f = true := by
  intro f hf
  simp only [adjacencyConstraints, List.mem_flatMap] at hf
  obtain ⟨e, -, hf⟩ := hf
  simp only [List.mem_cons, List.mem_singleton, List.not_mem_nil, or_false] at hf
  rcases hf with rfl | rfl | rfl <;> simp [emptyAssign]

theorem distanceZeroSelf_empty {N : Nat} :
    ∀ f ∈ distanceZeroSelf N, eval (emptyAssign N) f = true := by
  intro f hf
  simp only [distanceZeroSelf, List.mem_map, List.mem_range] at hf
  obtain ⟨v, -, rfl⟩ := hf
  simp [emptyAssign]

theorem oneHop_empty {N : Nat} :
    ∀ f ∈ oneHopConstraints N, eval (emptyAssign N) f = true := by
  intro f hf
  simp only [oneHopConstraints, List.mem_map] at hf
  obtain ⟨e, -, rfl⟩ := hf
  simp [emptyAssign]

theorem transitivity_empty {N : Nat} :
    ∀ f ∈ transitivityConstraints N, eval (emptyAssign N) f = true := by
  intro f hf
  simp only [transitivityConstraints, List.mem_flatMap, List.mem_range] at hf
  obtain ⟨n1, -, n2, -, n3, -, d1, -, d2, -, d3, -, hf⟩ := hf
  by_cases h : d3 = d1 + d2
  · subst h
    rw [if_pos rfl, List.mem_singleton] at hf
    subst hf
    simp only [eval_impl, eval_and, eval_atom, emptyAssign]
    simp only [Bool.or_eq_true, Bool.not_eq_eq_eq_not, Bool.not_true, decide_eq_false_iff_not,
      Bool.and_eq_true, decide_eq_true_eq]
    by_cases h12 : n1 = n2 ∧ d1 = 0
    · by_cases h23 : n2 = n3 ∧ d2 = 0
      · right; omega
      · left; simp [h23]
    · left; simp [h12]
  · simp [h] at hf

theorem wellSupported_empty {N : Nat} :
    ∀ f ∈ wellSupportedConstraints N, eval (emptyAssign N) f = true := by
  intro f hf
  simp only [wellSupportedConstraints, List.mem_flatMap, List.mem_map, List.mem_range,
    List.mem_range'_1] at hf
  obtain ⟨n1, -, n3, -, d, hd, rfl⟩ := hf
  have : ¬(n1 = n3 ∧ d = 0) := by omega
  simp [emptyAssign, this]

theorem distanceZeroUnique_empty {N : Nat} :
    ∀ f ∈ distanceZeroUnique N, eval (emptyAssign N) f = true := by
  intro f hf
  simp only [distanceZeroUnique, List.mem_flatMap, List.mem_range, List.mem_cons] at hf
  obtain ⟨node, -, hf | hf⟩ := hf
  · subst hf; simp [emptyAssign]
  · obtain ⟨other, -, hf⟩ := hf
    by_cases h : other = node
    · simp [h] at hf
    · rw [if_pos h, List.mem_singleton] at hf
      subst hf
      simp [emptyAssign]
      omega

theorem strongConn_empty {N : Nat} (hN : 1 ≤ N) :
    ∀ f ∈ strongConnectivityConstraints N, eval (emptyAssign N) f = true := by
  intro f hf
  simp only [strongConnectivityConstraints, List.mem_cons, List.mem_singleton,
    List.not_mem_nil, or_false] at hf
  by_cases h1 : N = 1
  · subst h1
    rcases hf with rfl | rfl <;> decide
  · have hconn : eval (emptyAssign N) (bigAnd (all_connections N)) = false := by
      rw [eval_bigAnd, List.all_eq_false]
      refine ⟨bigOr ((List.range (N+1)).map fun d => .atom (.Distance 0 1 d)), ?_, ?_⟩
      · simp only [all_connections, List.mem_flatMap, List.mem_range]
        exact ⟨1, by omega, by simp⟩
      · rw [eval_bigOr]
        simp only [List.any_eq_true, List.mem_map, List.mem_range, Bool.not_eq_true]
        push_neg
        rintro f ⟨d, -, rfl⟩
        simp [emptyAssign]
    have hsc : emptyAssign N STRONGLY_CONNECTED = false := by
      simp [emptyAssign, STRONGLY_CONNECTED, h1]
    rcases hf with rfl | rfl <;> simp [hconn, hsc]

/-- Every constraint emitted by the builder holds in the empty graph on
`N ≥ 1` nodes. -/
theorem baseTheory_empty {N : Nat} (hN : 1 ≤ N) :
    satisfies (emptyAssign N) (baseTheory N) = true := by
  rw [satisfies_iff]
  intro f hf
  simp only [baseTheory, List.mem_append] at hf
  rcases hf with ((((((hf | hf) | hf) | hf) | hf) | hf) | hf) | hf
  · exact noSelfLoops_empty f hf
  · exact adjacency_empty f hf
  · exact distanceZeroSelf_empty f hf
  · exact oneHop_empty f hf
  · exact transitivity_empty f hf
  · exact wellSupported_empty f hf
  · exact distanceZeroUnique_empty f hf
  · exact strongConn_empty hN f hf

/-! ### Claim theorems -/

/-- C1: the builder's formula contains, for every ordered node pair (a,c)
and every distance 1 ≤ d ≤ N, the well-supportedness constraint
Distance(a,c,d) → OR over b of (Edge(b,c) ∧ Distance(a,b,d-1)): the
predecessor search is conditioned on an edge directed into the target c
(not on Adjacent, and not on successors of an intermediate node). -/
theorem wellSupportedness_constraint_present (N a c d : Nat) (ha : a < N) (hc : c < N)
    (h1 : 1 ≤ d) (h2 : d ≤ N) :
    Formula.impl (.atom (.Distance a c d))
      (bigOr ((List.range N).map fun b =>
        .and (.atom (.Edge b c)) (.atom (.Distance a b (d-1))))) ∈ baseTheory N :=
  wellSupported_subset N (mem_wellSupported ha hc h1 h2)

/-- Witness for C1 at N = 2, a = 0, c = 1, d = 1. -/
theorem wellSupportedness_constraint_present_witness :
    Formula.impl (.atom (.Distance 0 1 1))
      (bigOr ((List.range 2).map fun b =>
        .and (.atom (.Edge b 1)) (.atom (.Distance 0 b (1-1))))) ∈ baseTheory 2 :=
  wellSupportedness_constraint_present 2 0 1 1 (by omega) (by omega) (Nat.le_refl 1) (by omega)

/-- C2: the builder's formula contains, for every triple (a,b,c) and every
pair of distances with d1 + d2 ≤ N, the transitivity constraint
(Distance(a,b,d1) ∧ Distance(b,c,d2)) → Distance(a,c,d1+d2); every
combination with a representable sum is covered. -/
theorem transitivity_constraint_present (N a b c d1 d2 : Nat) (ha : a < N) (hb : b < N)
    (hc : c < N) (hd : d1 + d2 ≤ N) :
    Formula.impl (.and (.atom (.Distance a b d1)) (.atom (.Distance b c d2)))
      (.atom (.Distance a c (d1 + d2))) ∈ baseTheory N :=
  transitivity_subset N (mem_transitivity ha hb hc hd)

/-- Witness for C2 at N = 3, (a,b,c) = (0,1,2), d1 = 1, d2 = 2. -/
theorem transitivity_constraint_present_witness :
    Formula.impl (.and (.atom (.Distance 0 1 1)) (.atom (.Distance 1 2 2)))
      (.atom (.Distance 0 2 (1 + 2))) ∈ baseTheory 3 :=
  transitivity_constraint_present 3 0 1 2 1 2 (by omega) (by omega) (by omega) (by norm_num)

/-- C6: for every node count N ≥ 1 the builder's constraint groups alone
(no scenario injection) are satisfiable, e.g. by the empty graph. -/
theorem base_theory_satisfiable (N : Nat) (hN : 1 ≤ N) :
    ∃ v, satisfies v (baseTheory N) = true :=
  ⟨emptyAssign N, baseTheory_empty hN⟩

/-- Witness for C6 at N = 3. -/
theorem base_theory_satisfiable_witness :
    ∃ v, satisfies v (baseTheory 3) = true :=
  base_theory_satisfiable 3 (by omega)

/-- C8: injecting the fixed example graph fails with a precondition
violation (modelled as `none`) exactly when the declared node count is not
the hard-coded size 4; at node count 4 it succeeds. -/
theorem example_graph_requires_four (version N : Nat) :
    (N ≠ 4 → example_graph version N = none) ∧
    example_graph version 4 = some (exampleGraphConstraints version 4) := by
  constructor
  · intro h; simp [example_graph, h]
  · simp [example_graph]

/-- Witness for C8 at version 2, node counts 5 and 4. -/
theorem example_graph_requires_four_witness :
    example_graph 2 5 = none ∧ example_graph 2 4 = some (exampleGraphConstraints 2 4) :=
  ⟨(example_graph_requires_four 2 5).1 (by omega), (example_graph_requires_four 2 4).2⟩

/-- C9: proposition identity is structural — for each kind, two instances
built from identical parameter tuples are equal with equal hashes
(independent of any allocation order: the model has no allocation state),
and two propositions are equal exactly when their canonical string
representations coincide. -/
theorem proposition_identity_structural :
    (∀ x y, pyEq (.Edge x y) (.Edge x y) = true ∧ pyHash (.Edge x y) = pyHash (.Edge x y)) ∧
    (∀ x y, pyEq (.Adjacent x y) (.Adjacent x y) = true ∧
      pyHash (.Adjacent x y) = pyHash (.Adjacent x y)) ∧
    (∀ x y n, pyEq (.Distance x y n) (.Distance x y n) = true ∧
      pyHash (.Distance x y n) = pyHash (.Distance x y n)) ∧
    (∀ n, pyEq (.Reachable n) (.Reachable n) = true ∧
      pyHash (.Reachable n) = pyHash (.Reachable n)) ∧
    (∀ s, pyEq (.Property s) (.Property s) = true ∧
      pyHash (.Property s) = pyHash (.Property s)) ∧
    (∀ p q : Proposition, pyEq p q = true ↔ canon p = canon q) := by
  refine ⟨fun x y => ⟨?_, rfl⟩, fun x y => ⟨?_, rfl⟩, fun x y n => ⟨?_, rfl⟩,
    fun n => ⟨?_, rfl⟩, fun s => ⟨?_, rfl⟩, fun p q => ?_⟩ <;>
    simp [pyEq, pyHash]

/-- C3: in every assignment satisfying the builder's constraint groups,
Distance(x,y,1) holds iff Edge(x,y) holds, for every pair of distinct
nodes; in particular at node count 2 with both edges between n0 and n1
forced false, Distance(n0,n1,1) is false in every satisfying assignment. -/
theorem distance_one_iff_edge :
    (∀ N (v : Proposition → Bool), satisfies v (baseTheory N) = true →
      ∀ x y, x < N → y < N → x ≠ y →
        (v (.Distance x y 1) = true ↔ v (.Edge x y) = true)) ∧
    (∀ v : Proposition → Bool, satisfies v (baseTheory 2) = true →
      v (.Edge 0 1) = false → v (.Edge 1 0) = false →
      v (.Distance 0 1 1) = false) := by
  have main : ∀ N (v : Proposition → Bool), satisfies v (baseTheory N) = true →
      ∀ x y, x < N → y < N → x ≠ y →
        (v (.Distance x y 1) = true ↔ v (.Edge x y) = true) := by
    intro N v h x y hx hy hxy
    constructor
    · intro hD
      have hws := eval_of_satisfies h
        (wellSupported_subset N (mem_wellSupported hx hy (le_refl 1) (by omega)))
      rw [eval_impl, eval_atom, hD, eval_bigOr] at hws
      simp only [Bool.not_true, Bool.false_or, List.any_eq_true, List.mem_map,
        List.mem_range] at hws
      obtain ⟨g, ⟨b, hb, rfl⟩, hg⟩ := hws
      rw [eval_and, eval_atom, eval_atom, Bool.and_eq_true] at hg
      obtain ⟨hEdge, hDist0⟩ := hg
      by_cases hbx : b = x
      · subst hbx; exact hEdge
      · have hz := eval_of_satisfies h
          (distanceZeroUnique_subset N (mem_distanceZeroUnique_neg hx hb hbx))
        rw [eval_neg, eval_atom, Bool.not_eq_eq_eq_not, Bool.not_true] at hz
        simp only [Nat.sub_self] at hDist0
        rw [hz] at hDist0
        exact absurd hDist0 (by simp)
    · intro hE
      have hoh := eval_of_satisfies h (oneHop_subset N (mem_oneHop hx hy))
      rw [eval_impl, eval_atom, eval_atom, hE] at hoh
      simpa using hoh
  refine ⟨main, ?_⟩
  intro v hv h01 h10
  have hiff := main 2 v hv 0 1 (by decide) (by decide) (by decide)
  cases hD : v (.Distance 0 1 1)
  · rfl
  · have hEdge := hiff.mp hD
    rw [h01] at hEdge
    exact absurd hEdge (by simp)

/-- Witness for C3: the empty graph on two nodes satisfies the constraint
groups, has both edges false, and decodes Distance(n0,n1,1) to false. -/
theorem distance_one_iff_edge_witness :
    (emptyAssign 2 (.Distance 0 1 1) = true ↔ emptyAssign 2 (.Edge 0 1) = true) ∧
    emptyAssign 2 (.Distance 0 1 1) = false :=
  ⟨distance_one_iff_edge.1 2 (emptyAssign 2) (by decide) 0 1 (by omega) (by omega)
    (by norm_num),
   distance_one_iff_edge.2 (emptyAssign 2) (by decide) rfl rfl⟩

/-! ### Monotone (negation-free) formulas -/

/-- A formula is positive when it contains no negation and no implication;
its truth is then monotone in the assignment. -/
def positive : Formula → Bool
  | .atom _ => true
  | .neg _ => false
  | .and f g => positive f && positive g
  | .or f g => positive f && positive g
  | .impl _ _ => false
  | .tru => true
  | .fls => true

theorem eval_mono {v w : Proposition → Bool} (hvw : ∀ p, v p = true → w p = true) :
    ∀ {f : Formula}, positive f = true → eval v f = true → eval w f = true := by
  intro f
  induction f with
  | atom p => exact fun _ => hvw p
  | neg f ih => intro hpos; simp [positive] at hpos
  | and f g ihf ihg =>
      intro hpos hv
      rw [positive, Bool.and_eq_true] at hpos
      rw [eval_and, Bool.and_eq_true] at hv ⊢
      exact ⟨ihf hpos.1 hv.1, ihg hpos.2 hv.2⟩
  | or f g ihf ihg =>
      intro hpos hv
      rw [positive, Bool.and_eq_true] at hpos
      rw [eval_or, Bool.or_eq_true] at hv ⊢
      rcases hv with hv | hv
      · exact Or.inl (ihf hpos.1 hv)
      · exact Or.inr (ihg hpos.2 hv)
  | impl f g ihf ihg => intro hpos; simp [positive] at hpos
  | tru => intro _ _; rfl
  | fls => intro _ hv; simpa using hv

/-! ### Consequences of the injected 4-cycle scenario -/

/-- Under any assignment satisfying the injected example constraints, each
of the sixteen Edge variables takes exactly the value prescribed by the
desired edge set. -/
theorem cycle_edge_values {v : Proposition → Bool}
    (hB : satisfies v (exampleGraphConstraints 2 4) = true) :
    ∀ i j, i < 4 → j < 4 → v (.Edge i j) = decide ((i, j) ∈ desired_edges 2) := by
  intro i j hi hj
  have hmem : (if (i, j) ∈ desired_edges 2 then Formula.atom (.Edge i j)
      else Formula.neg (.atom (.Edge i j))) ∈ exampleGraphConstraints 2 4 := by
    unfold exampleGraphConstraints
    refine List.mem_flatMap.mpr ⟨i, List.mem_range.mpr hi, ?_⟩
    refine List.mem_flatMap.mpr ⟨j, List.mem_range.mpr hj, ?_⟩
    by_cases h : (i, j) ∈ desired_edges 2
    · rw [if_pos h, if_pos h]; exact List.mem_singleton.mpr rfl
    · rw [if_neg h, if_neg h]; exact List.mem_singleton.mpr rfl
  have h := eval_of_satisfies hB hmem
  by_cases hd : (i, j) ∈ desired_edges 2
  · rw [if_pos hd] at h
    rw [eval_atom] at h
    rw [h, decide_eq_true hd]
  · rw [if_neg hd] at h
    rw [eval_neg, eval_atom, Bool.not_eq_eq_eq_not, Bool.not_true] at h
    rw [h]
    simp [hd]

/-- One-hop rule specialised to a satisfying assignment of the builder's
groups. -/
theorem oneHop_rule {N : Nat} {v : Proposition → Bool}
    (hA : satisfies v (baseTheory N) = true) {a b : Nat} (ha : a < N) (hb : b < N)
    (he : v (.Edge a b) = true) : v (.Distance a b 1) = true := by
  have h := eval_of_satisfies hA (oneHop_subset N (mem_oneHop ha hb))
  rw [eval_impl, eval_atom, eval_atom, he] at h
  simpa using h

/-- Transitivity rule specialised to a satisfying assignment of the
builder's groups. -/
theorem transitivity_rule {N : Nat} {v : Proposition → Bool}
    (hA : satisfies v (baseTheory N) = true) {a b c d1 d2 : Nat} (ha : a < N) (hb : b < N)
    (hc : c < N) (hd : d1 + d2 ≤ N) (h1 : v (.Distance a b d1) = true)
    (h2 : v (.Distance b c d2) = true) : v (.Distance a c (d1 + d2)) = true := by
  have h := eval_of_satisfies hA (transitivity_subset N (mem_transitivity ha hb hc hd))
  rw [eval_impl, eval_and, eval_atom, eval_atom, eval_atom, h1, h2] at h
  simpa using h

/-- Edge-to-adjacency rule specialised to a satisfying assignment. -/
theorem adjacency_rule {N : Nat} {v : Proposition → Bool}
    (hA : satisfies v (baseTheory N) = true) {a b : Nat} (ha : a < N) (hb : b < N)
    (he : v (.Edge a b) = true) : v (.Adjacent a b) = true := by
  have h := eval_of_satisfies hA (adjacency_subset N (mem_adjacency_of_edge ha hb))
  rw [eval_impl, eval_atom, eval_atom, he] at h
  simpa using h

/-- The distance facts of the 4-cycle that witness every reachability
disjunction of the strong-connectivity block. -/
def cycleDistCore : Proposition → Bool
  | .Distance x y d => decide ((x, y, d) ∈
      [(0,0,0), (0,1,1), (0,2,2), (0,3,3), (1,0,3), (2,0,2), (3,0,1)])
  | _ => false

/-- Any assignment satisfying the builder's groups plus the injected
4-cycle makes STRONGLY_CONNECTED true. -/
theorem cycle_forces_strongly_connected {v : Proposition → Bool}
    (hA : satisfies v (baseTheory 4) = true)
    (hB : satisfies v (exampleGraphConstraints 2 4) = true) :
    v STRONGLY_CONNECTED = true := by
  have hedge := cycle_edge_values hB
  have e01 : v (.Edge 0 1) = true := (hedge 0 1 (by omega) (by omega)).trans (by decide)
  have e12 : v (.Edge 1 2) = true := (hedge 1 2 (by omega) (by omega)).trans (by decide)
  have e23 : v (.Edge 2 3) = true := (hedge 2 3 (by omega) (by omega)).trans (by decide)
  have e30 : v (.Edge 3 0) = true := (hedge 3 0 (by omega) (by omega)).trans (by decide)
  have h000 : v (.Distance 0 0 0) = true := by
    have h := eval_of_satisfies hA
      (distanceZeroSelf_subset 4 (mem_distanceZeroSelf (show 0 < 4 by omega)))
    simpa using h
  have hd01 : v (.Distance 0 1 1) = true := oneHop_rule hA (by omega) (by omega) e01
  have hd12 : v (.Distance 1 2 1) = true := oneHop_rule hA (by omega) (by omega) e12
  have hd23 : v (.Distance 2 3 1) = true := oneHop_rule hA (by omega) (by omega) e23
  have hd30 : v (.Distance 3 0 1) = true := oneHop_rule hA (by omega) (by omega) e30
  have hd02 : v (.Distance 0 2 2) = true := by
    have h := transitivity_rule hA (show 0 < 4 by omega) (show 1 < 4 by omega)
      (show 2 < 4 by omega) (show 1 + 1 ≤ 4 by omega) hd01 hd12
    norm_num at h
    exact h
  have hd03 : v (.Distance 0 3 3) = true := by
    have h := transitivity_rule hA (show 0 < 4 by omega) (show 2 < 4 by omega)
      (show 3 < 4 by omega) (show 2 + 1 ≤ 4 by omega) hd02 hd23
    norm_num at h
    exact h
  have hd13 : v (.Distance 1 3 2) = true := by
    have h := transitivity_rule hA (show 1 < 4 by omega) (show 2 < 4 by omega)
      (show 3 < 4 by omega) (show 1 + 1 ≤ 4 by omega) hd12 hd23
    norm_num at h
    exact h
  have hd10 : v (.Distance 1 0 3) = true := by
    have h := transitivity_rule hA (show 1 < 4 by omega) (show 3 < 4 by omega)
      (show 0 < 4 by omega) (show 2 + 1 ≤ 4 by omega) hd13 hd30
    norm_num at h
    exact h
  have hd20 : v (.Distance 2 0 2) = true := by
    have h := transitivity_rule hA (show 2 < 4 by omega) (show 3 < 4 by omega)
      (show 0 < 4 by omega) (show 1 + 1 ≤ 4 by omega) hd23 hd30
    norm_num at h
    exact h
  have hdom : ∀ p, cycleDistCore p = true → v p = true := by
    intro p hp
    cases p with
    | Distance x y d =>
        simp only [cycleDistCore, decide_eq_true_eq, List.mem_cons, List.not_mem_nil,
          or_false, Prod.mk.injEq] at hp
        obtain h | h | h | h | h | h | h := hp
        · obtain ⟨rfl, rfl, rfl⟩ := h; exact h000
        · obtain ⟨rfl, rfl, rfl⟩ := h; exact hd01
        · obtain ⟨rfl, rfl, rfl⟩ := h; exact hd02
        · obtain ⟨rfl, rfl, rfl⟩ := h; exact hd03
        · obtain ⟨rfl, rfl, rfl⟩ := h; exact hd10
        · obtain ⟨rfl, rfl, rfl⟩ := h; exact hd20
        · obtain ⟨rfl, rfl, rfl⟩ := h; exact hd30
    | Edge x y => simp [cycleDistCore] at hp
    | Adjacent x y => simp [cycleDistCore] at hp
    | Reachable n => simp [cycleDistCore] at hp
    | Property s => simp [cycleDistCore] at hp
  have hBig : eval v (bigAnd (all_connections 4)) = true :=
    eval_mono hdom (by decide) (by decide)
  have hsc := eval_of_satisfies hA (strongConn_subset 4 mem_strongConn_mpr)
  rw [eval_impl, hBig, eval_atom] at hsc
  simpa using hsc

set_option maxRecDepth 200000

/-- The concrete cycle model satisfies the builder's groups together with
the injected example graph (checked by evaluation). -/
theorem cycleAssign_satisfies :
    satisfies cycleAssign (baseTheory 4 ++ exampleGraphConstraints 2 4) = true := by
  decide

/-- The formula `build_theory` returns at node count 4. -/
theorem build_theory_four :
    build_theory 4 = some (baseTheory 4 ++ exampleGraphConstraints 2 4) := by
  simp [build_theory, example_graph, FORCE_DISCONNECTED]

/-- C4: at node count 4, with the example edge set version 2 (the 4-cycle)
injected, the resulting formula is satisfiable and STRONGLY_CONNECTED is
true in every satisfying assignment. -/
theorem cycle_scenario_sat_and_strongly_connected :
    ∀ Γ, build_theory 4 = some Γ →
      (∃ v, satisfies v Γ = true) ∧
      (∀ v : Proposition → Bool, satisfies v Γ = true → v STRONGLY_CONNECTED = true) := by
  intro Γ hΓ
  rw [build_theory_four, Option.some_inj] at hΓ
  subst hΓ
  refine ⟨⟨cycleAssign, cycleAssign_satisfies⟩, ?_⟩
  intro v hsat
  rw [satisfies_append, Bool.and_eq_true] at hsat
  exact cycle_forces_strongly_connected hsat.1 hsat.2

/-- Witness for C4: the concrete cycle model instantiates both halves. -/
theorem cycle_scenario_witness :
    (∃ v, satisfies v (baseTheory 4 ++ exampleGraphConstraints 2 4) = true) ∧
    cycleAssign STRONGLY_CONNECTED = true := by
  have h := cycle_scenario_sat_and_strongly_connected
    (baseTheory 4 ++ exampleGraphConstraints 2 4) build_theory_four
  exact ⟨h.1, h.2 cycleAssign cycleAssign_satisfies⟩

/-- C10: theory construction injects example graph version 2
unconditionally — `build_theory` fails for every node count other than 4,
and at node count 4 every satisfying assignment of the returned formula
makes Edge(ni,nj) true exactly for (i,j) in the 4-cycle set. -/
theorem build_theory_asserts_four_and_fixes_edges :
    (∀ N, N ≠ 4 → build_theory N = none) ∧
    (∀ Γ (v : Proposition → Bool), build_theory 4 = some Γ → satisfies v Γ = true →
      ∀ i j, i < 4 → j < 4 → (v (.Edge i j) = true ↔ (i, j) ∈ desired_edges 2)) := by
  constructor
  · intro N h
    simp [build_theory, example_graph, h]
  · intro Γ v hΓ hsat i j hi hj
    rw [build_theory_four, Option.some_inj] at hΓ
    subst hΓ
    rw [satisfies_append, Bool.and_eq_true] at hsat
    rw [cycle_edge_values hsat.2 i j hi hj]
    simp

/-- Witness for C10 at node count 5 (failure) and the concrete cycle model
(edge decoding). -/
theorem build_theory_asserts_four_witness :
    build_theory 5 = none ∧
    (cycleAssign (.Edge 0 1) = true ↔ (0, 1) ∈ desired_edges 2) :=
  ⟨build_theory_asserts_four_and_fixes_edges.1 5 (by omega),
   build_theory_asserts_four_and_fixes_edges.2
     (baseTheory 4 ++ exampleGraphConstraints 2 4) cycleAssign build_theory_four
     cycleAssign_satisfies 0 1 (by omega) (by norm_num)⟩

/-- Reachability-propagation rule of the forced-disconnection block,
specialised to a satisfying assignment. -/
theorem reach_rule {v : Proposition → Bool}
    (hC : satisfies v (force_disconnected 4) = true) {a b : Nat} (ha : a < 4) (hb : b < 4)
    (hr : v (.Reachable a) = true) (hadj : v (.Adjacent a b) = true) :
    v (.Reachable b) = true := by
  have hmem : Formula.impl (.and (.atom (.Reachable a)) (.atom (.Adjacent a b)))
      (.atom (.Reachable b)) ∈ force_disconnected 4 := by
    unfold force_disconnected
    refine List.mem_cons.mpr (Or.inr (List.mem_append.mpr (Or.inl ?_)))
    refine List.mem_flatMap.mpr ⟨a, List.mem_range.mpr ha, ?_⟩
    exact List.mem_map.mpr ⟨b, List.mem_range.mpr hb, rfl⟩
  have h := eval_of_satisfies hC hmem
  rw [eval_impl, eval_and, eval_atom, eval_atom, eval_atom, hr, hadj] at h
  simpa using h

/-- C5: the conjunction of the builder's groups, the injected 4-cycle edge
set, and the forced-disconnection block is unsatisfiable. -/
theorem forced_disconnection_unsat :
    ∀ v : Proposition → Bool,
      satisfies v (baseTheory 4 ++ exampleGraphConstraints 2 4 ++ force_disconnected 4) =
        false := by
  intro v
  cases hb : satisfies v (baseTheory 4 ++ exampleGraphConstraints 2 4 ++ force_disconnected 4)
  · rfl
  · exfalso
    rw [satisfies_append, satisfies_append, Bool.and_eq_true, Bool.and_eq_true] at hb
    obtain ⟨⟨hA, hB⟩, hC⟩ := hb
    have hedge := cycle_edge_values hB
    have e01 : v (.Edge 0 1) = true := (hedge 0 1 (by omega) (by omega)).trans (by decide)
    have e12 : v (.Edge 1 2) = true := (hedge 1 2 (by omega) (by omega)).trans (by decide)
    have e23 : v (.Edge 2 3) = true := (hedge 2 3 (by omega) (by omega)).trans (by decide)
    have a01 : v (.Adjacent 0 1) = true := adjacency_rule hA (by omega) (by omega) e01
    have a12 : v (.Adjacent 1 2) = true := adjacency_rule hA (by omega) (by omega) e12
    have a23 : v (.Adjacent 2 3) = true := adjacency_rule hA (by omega) (by omega) e23
    have r0 : v (.Reachable 0) = true := by
      have h := eval_of_satisfies hC (show Formula.atom (.Reachable 0) ∈
        force_disconnected 4 from List.mem_cons_self _ _)
      simpa using h
    have r1 : v (.Reachable 1) = true := reach_rule hC (by omega) (by omega) r0 a01
    have r2 : v (.Reachable 2) = true := reach_rule hC (by omega) (by omega) r1 a12
    have r3 : v (.Reachable 3) = true := reach_rule hC (by omega) (by omega) r2 a23
    have hmem : bigOr ((List.range 4).map fun n => .neg (.atom (.Reachable n))) ∈
        force_disconnected 4 := by
      unfold force_disconnected
      refine List.mem_cons.mpr (Or.inr (List.mem_append.mpr (Or.inr ?_)))
      exact List.mem_singleton.mpr rfl
    have h := eval_of_satisfies hC hmem
    rw [eval_bigOr, List.any_eq_true] at h
    obtain ⟨g, hg, hgt⟩ := h
    rw [List.mem_map] at hg
    obtain ⟨n, hn, rfl⟩ := hg
    rw [List.mem_range] at hn
    rw [eval_neg, eval_atom] at hgt
    interval_cases n
    · rw [r0] at hgt; simp at hgt
    · rw [r1] at hgt; simp at hgt
    · rw [r2] at hgt; simp at hgt
    · rw [r3] at hgt; simp at hgt

/-- Witness for C5 at the concrete cycle model. -/
theorem forced_disconnection_unsat_witness :
    satisfies cycleAssign
      (baseTheory 4 ++ exampleGraphConstraints 2 4 ++ force_disconnected 4) = false :=
  forced_disconnection_unsat cycleAssign

/-- No constraint the builder emits is a top-level disjunction: every
emitted constraint is a negation, an implication, or a bare atom (the
disjunctions all sit under implications). -/
theorem baseTheory_not_or {N : Nat} :
    ∀ f ∈ baseTheory N, ∀ g h, f ≠ Formula.or g h := by
  intro f hf
  simp only [baseTheory, List.mem_append] at hf
  rcases hf with ((((((hf | hf) | hf) | hf) | hf) | hf) | hf) | hf
  · simp only [noSelfLoops, List.mem_map] at hf
    obtain ⟨a, -, rfl⟩ := hf
    intro g h hgh; exact Formula.noConfusion hgh
  · simp only [adjacencyConstraints, List.mem_flatMap, List.mem_cons, List.not_mem_nil,
      or_false] at hf
    obtain ⟨e, -, rfl | rfl | rfl⟩ := hf <;>
      (intro g h hgh; exact Formula.noConfusion hgh)
  · simp only [distanceZeroSelf, List.mem_map] at hf
    obtain ⟨a, -, rfl⟩ := hf
    intro g h hgh; exact Formula.noConfusion hgh
  · simp only [oneHopConstraints, List.mem_map] at hf
    obtain ⟨e, -, rfl⟩ := hf
    intro g h hgh; exact Formula.noConfusion hgh
  · simp only [transitivityConstraints, List.mem_flatMap, List.mem_range] at hf
    obtain ⟨n1, -, n2, -, n3, -, d1, -, d2, -, d3, -, hf⟩ := hf
    by_cases hd : d3 = d1 + d2
    · subst hd
      rw [if_pos rfl, List.mem_singleton] at hf
      subst hf
      intro g h hgh; exact Formula.noConfusion hgh
    · simp [hd] at hf
  · simp only [wellSupportedConstraints, List.mem_flatMap, List.mem_map] at hf
    obtain ⟨n1, -, n3, -, d, -, rfl⟩ := hf
    intro g h hgh; exact Formula.noConfusion hgh
  · simp only [distanceZeroUnique, List.mem_flatMap, List.mem_cons] at hf
    obtain ⟨node, -, rfl | hf⟩ := hf
    · intro g h hgh; exact Formula.noConfusion hgh
    · obtain ⟨other, -, hf⟩ := hf
      by_cases ho : other = node
      · simp [ho] at hf
      · rw [if_pos ho, List.mem_singleton] at hf
        subst hf
        intro g h hgh; exact Formula.noConfusion hgh
  · simp only [strongConnectivityConstraints, List.mem_cons, List.not_mem_nil,
      or_false] at hf
    rcases hf with rfl | rfl <;> (intro g h hgh; exact Formula.noConfusion hgh)

/-- C7 counterexample: the emitted formula contains no totality constraint
Edge ∨ ¬Edge — here checked for the edge proposition Edge(n0,n1) against
the builder's groups at node count 4 and against the full formula
`build_theory` emits. -/
theorem totality_constraint_absent :
    Formula.or (.atom (.Edge 0 1)) (.neg (.atom (.Edge 0 1))) ∉ baseTheory 4 ∧
    Formula.or (.atom (.Edge 0 1)) (.neg (.atom (.Edge 0 1))) ∉
      (baseTheory 4 ++ exampleGraphConstraints 2 4) := by
  constructor <;> decide

/-- C7 amended: the builder emits the seven constraint groups that exist in
the code — no-self-loops, adjacency derivation, distance base case (self at
0 and uniqueness of 0), one-hop, transitivity, well-supportedness, and the
strong-connectivity equivalence — but no totality constraint Edge ∨ ¬Edge
for any edge proposition (indeed no top-level disjunction at all). -/
theorem seven_groups_present_totality_absent :
    (∀ N a, a < N → Formula.neg (.atom (.Edge a a)) ∈ baseTheory N) ∧
    (∀ N x y, x < N → y < N →
      Formula.impl (.atom (.Edge x y)) (.atom (.Adjacent x y)) ∈ baseTheory N ∧
      Formula.impl (.atom (.Adjacent x y)) (.atom (.Adjacent y x)) ∈ baseTheory N ∧
      Formula.impl (.atom (.Adjacent x y))
        (.or (.atom (.Edge x y)) (.atom (.Edge y x))) ∈ baseTheory N) ∧
    (∀ N x, x < N → Formula.atom (.Distance x x 0) ∈ baseTheory N) ∧
    (∀ N x y, x < N → y < N → y ≠ x →
      Formula.neg (.atom (.Distance x y 0)) ∈ baseTheory N) ∧
    (∀ N x y, x < N → y < N →
      Formula.impl (.atom (.Edge x y)) (.atom (.Distance x y 1)) ∈ baseTheory N) ∧
    (∀ N a b c d1 d2, a < N → b < N → c < N → d1 + d2 ≤ N →
      Formula.impl (.and (.atom (.Distance a b d1)) (.atom (.Distance b c d2)))
        (.atom (.Distance a c (d1 + d2))) ∈ baseTheory N) ∧
    (∀ N a c d, a < N → c < N → 1 ≤ d → d ≤ N →
      Formula.impl (.atom (.Distance a c d))
        (bigOr ((List.range N).map fun b =>
          .and (.atom (.Edge b c)) (.atom (.Distance a b (d-1))))) ∈ baseTheory N) ∧
    (∀ N, Formula.impl (.atom STRONGLY_CONNECTED) (bigAnd (all_connections N)) ∈
        baseTheory N ∧
      Formula.impl (bigAnd (all_connections N)) (.atom STRONGLY_CONNECTED) ∈
        baseTheory N) ∧
    (∀ N x y, Formula.or (.atom (.Edge x y)) (.neg (.atom (.Edge x y))) ∉ baseTheory N) := by
  refine ⟨?_, ?_, ?_, ?_, ?_, ?_, ?_, ?_, ?_⟩
  · intro N a ha
    exact noSelfLoops_subset N (mem_noSelfLoops ha)
  · intro N x y hx hy
    exact ⟨adjacency_subset N (mem_adjacency_of_edge hx hy),
      adjacency_subset N (mem_adjacency_symm hx hy),
      adjacency_subset N (mem_adjacency_cover hx hy)⟩
  · intro N x hx
    exact distanceZeroSelf_subset N (mem_distanceZeroSelf hx)
  · intro N x y hx hy hne
    exact distanceZeroUnique_subset N (mem_distanceZeroUnique_neg hx hy hne)
  · intro N x y hx hy
    exact oneHop_subset N (mem_oneHop hx hy)
  · intro N a b c d1 d2 ha hb hc hd
    exact transitivity_subset N (mem_transitivity ha hb hc hd)
  · intro N a c d ha hc h1 h2
    exact wellSupported_subset N (mem_wellSupported ha hc h1 h2)
  · intro N
    exact ⟨strongConn_subset N mem_strongConn_mp, strongConn_subset N mem_strongConn_mpr⟩
  · intro N x y hmem
    exact baseTheory_not_or _ hmem _ _ rfl

/-- Witness for the C7 amended theorem at node count 2. -/
theorem seven_groups_present_totality_absent_witness :
    Formula.neg (.atom (.Edge 0 0)) ∈ baseTheory 2 ∧
    Formula.impl (.atom (.Edge 0 1)) (.atom (.Adjacent 0 1)) ∈ baseTheory 2 ∧
    Formula.atom (.Distance 1 1 0) ∈ baseTheory 2 ∧
    Formula.neg (.atom (.Distance 0 1 0)) ∈ baseTheory 2 ∧
    Formula.impl (.atom (.Edge 0 1)) (.atom (.Distance 0 1 1)) ∈ baseTheory 2 ∧
    Formula.impl (.and (.atom (.Distance 0 1 1)) (.atom (.Distance 1 0 1)))
      (.atom (.Distance 0 0 (1 + 1))) ∈ baseTheory 2 ∧
    Formula.or (.atom (.Edge 0 1)) (.neg (.atom (.Edge 0 1))) ∉ baseTheory 2 :=
  ⟨seven_groups_present_totality_absent.1 2 0 (by omega),
   (seven_groups_present_totality_absent.2.1 2 0 1 (by omega) (by norm_num)).1,
   seven_groups_present_totality_absent.2.2.1 2 1 (by omega),
   seven_groups_present_totality_absent.2.2.2.1 2 0 1 (by omega) (by norm_num) (by omega),
   seven_groups_present_totality_absent.2.2.2.2.1 2 0 1 (by omega) (by norm_num),
   seven_groups_present_totality_absent.2.2.2.2.2.1 2 0 1 0 1 1 (by omega) (by norm_num)
     (by omega) (by norm_num),
   seven_groups_present_totality_absent.2.2.2.2.2.2.2.2 2 0 1⟩
